import Mathlib

/-!
Verification of the tkrzw core layer (`tkrzw_lib_common.h`): the `Status`
outcome type, its combination / comparison operators, the allocation
wrappers with the append-growth policy, the generic map lookup helper and
the resumable CRC-32 checksum interface. Each definition is a shallow
embedding of the corresponding C++ entity; machine integers are modelled
as `Nat` with explicit `% 2 ^ 64` where `size_t` overflow matters.
-/

namespace Tkrzw

/-- The thirteen status codes of `Status::Code` (`tkrzw_lib_common.h`). -/
inductive Code where
  | SUCCESS
  | UNKNOWN_ERROR
  | SYSTEM_ERROR
  | NOT_IMPLEMENTED_ERROR
  | PRECONDITION_ERROR
  | INVALID_ARGUMENT_ERROR
  | CANCELED_ERROR
  | NOT_FOUND_ERROR
  | PERMISSION_ERROR
  | INFEASIBLE_ERROR
  | DUPLICATION_ERROR
  | BROKEN_DATA_ERROR
  | APPLICATION_ERROR
  deriving DecidableEq

/-- The fixed ordinal value of each status code (`enum Code : int32_t`). -/
def Code.ordinal : Code → Nat
  | .SUCCESS => 0
  | .UNKNOWN_ERROR => 1
  | .SYSTEM_ERROR => 2
  | .NOT_IMPLEMENTED_ERROR => 3
  | .PRECONDITION_ERROR => 4
  | .INVALID_ARGUMENT_ERROR => 5
  | .CANCELED_ERROR => 6
  | .NOT_FOUND_ERROR => 7
  | .PERMISSION_ERROR => 8
  | .INFEASIBLE_ERROR => 9
  | .DUPLICATION_ERROR => 10
  | .BROKEN_DATA_ERROR => 11
  | .APPLICATION_ERROR => 12

/-- The `Status` value type: a code plus a message string. -/
structure Status where
  code : Code
  message : String
  deriving DecidableEq

/-- `Status::operator|=`: assigns the internal state from `rhs` only when the
receiver is a success and `rhs` is not (the source's aliasing guard
`this != &rhs` is vacuous at value level since the two codes differ in the
branch that assigns). -/
def Status.orAssign (lhs rhs : Status) : Status :=
  if lhs.code = Code.SUCCESS ∧ rhs.code ≠ Code.SUCCESS then
    ⟨rhs.code, rhs.message⟩
  else
    lhs

/-- `Status::operator==` on two statuses: compares the codes only. -/
def Status.eqOp (lhs rhs : Status) : Bool :=
  decide (lhs.code = rhs.code)

/-- `Status::operator!=` on two statuses: compares the codes only. -/
def Status.neOp (lhs rhs : Status) : Bool :=
  decide (lhs.code ≠ rhs.code)

/-- `Status::operator<`: orders by code ordinal first, then by the message
strings when the codes coincide. -/
def Status.ltOp (lhs rhs : Status) : Bool :=
  if lhs.code ≠ rhs.code then
    decide (Code.ordinal lhs.code < Code.ordinal rhs.code)
  else
    decide (lhs.message < rhs.message)

/-- `Status::CodeName`: the display name returned for each status code,
transcribed verbatim from the `switch` in the source. -/
def Status.CodeName : Code → String
  | .SUCCESS => "SUCCESS"
  | .UNKNOWN_ERROR => "UNKNOWN_ERROR"
  | .SYSTEM_ERROR => "SYSTEM_ERROR"
  | .NOT_IMPLEMENTED_ERROR => "NOT_IMPLEMENTED_ERROR"
  | .PRECONDITION_ERROR => "PRECONDITION_ERROR"
  | .INVALID_ARGUMENT_ERROR => "INVALID_ARGUMENT_ERROR"
  | .CANCELED_ERROR => "CANCELED_ERROR "
  | .NOT_FOUND_ERROR => "NOT_FOUND_ERROR"
  | .PERMISSION_ERROR => "PERMISSION_ERROR"
  | .INFEASIBLE_ERROR => "INFEASIBLE_ERROR"
  | .DUPLICATION_ERROR => "DUPLICATION_ERROR"
  | .BROKEN_DATA_ERROR => "BROKEN_DATA_ERROR"
  | .APPLICATION_ERROR => "APPLICATION_ERROR"

/-- The enumerator spelling of each status code, for comparison with
`Status.CodeName` (this one follows the spec's words: the display name is
the spelling of the enumerator, nothing else). -/
def Code.enumeratorSpelling : Code → String
  | .SUCCESS => "SUCCESS"
  | .UNKNOWN_ERROR => "UNKNOWN_ERROR"
  | .SYSTEM_ERROR => "SYSTEM_ERROR"
  | .NOT_IMPLEMENTED_ERROR => "NOT_IMPLEMENTED_ERROR"
  | .PRECONDITION_ERROR => "PRECONDITION_ERROR"
  | .INVALID_ARGUMENT_ERROR => "INVALID_ARGUMENT_ERROR"
  | .CANCELED_ERROR => "CANCELED_ERROR"
  | .NOT_FOUND_ERROR => "NOT_FOUND_ERROR"
  | .PERMISSION_ERROR => "PERMISSION_ERROR"
  | .INFEASIBLE_ERROR => "INFEASIBLE_ERROR"
  | .DUPLICATION_ERROR => "DUPLICATION_ERROR"
  | .BROKEN_DATA_ERROR => "BROKEN_DATA_ERROR"
  | .APPLICATION_ERROR => "APPLICATION_ERROR"

/-- `Status::operator std::string`: the code name, followed by `": "` and the
message when the message is non-empty. -/
def statusToString (s : Status) : String :=
  if s.message = "" then
    Status.CodeName s.code
  else
    Status.CodeName s.code ++ ": " ++ s.message

/-- `StatusException`: a `std::runtime_error` carrying the status; the `what`
field is the `runtime_error` message, set to `ToString(status)` by the
constructor. -/
structure StatusException where
  what : String
  status : Status
  deriving DecidableEq

/-- The `StatusException` constructor: stores `ToString(status)` as the
`runtime_error` message and keeps the status itself. -/
def StatusException.make (s : Status) : StatusException :=
  ⟨statusToString s, s⟩

/-- Modelled from the spec: the body of `Status::OrDie` is not under `src/`
(the header only declares it); per the spec's "unwrap or escalate" operation,
a success returns normally and any other outcome raises a `StatusException`
carrying the full outcome. -/
def Status.OrDie (s : Status) : Except StatusException Status :=
  if s.code = Code.SUCCESS then
    Except.ok s
  else
    Except.error (StatusException.make s)

/-- `std::map::find` over an association list with unique keys: the first
entry whose key matches, or `none` when the map does not contain the key. -/
def mapFind {K V : Type} [DecidableEq K] (map : List (K × V)) (key : K) :
    Option (K × V) :=
  map.find? (fun p => decide (p.1 = key))

/-- `SearchMap`: the value of the matching record, or the default value when
the key is absent (`it == map.end() ? default_value : it->second`). -/
def SearchMap {K V : Type} [DecidableEq K] (map : List (K × V)) (key : K)
    (default_value : V) : V :=
  match mapFind map key with
  | none => default_value
  | some p => p.2

/-- A pointer is an optional address; `none` models the null pointer. -/
abbrev Ptr : Type := Option Nat

/-- The `std::bad_alloc` payload raised on allocation failure. -/
inductive BadAlloc where
  | mk
  deriving DecidableEq

/-- `xmalloc`: calls the platform `std::malloc` (modelled as an oracle) and
throws `std::bad_alloc` when it returns null, otherwise returns its pointer. -/
def xmalloc (sysMalloc : Nat → Ptr) (size : Nat) : Except BadAlloc Ptr :=
  match sysMalloc size with
  | none => Except.error BadAlloc.mk
  | some p => Except.ok (some p)

/-- `xcalloc`: calls the platform `std::calloc` and throws `std::bad_alloc`
when it returns null, otherwise returns its pointer. -/
def xcalloc (sysCalloc : Nat → Nat → Ptr) (nmemb size : Nat) :
    Except BadAlloc Ptr :=
  match sysCalloc nmemb size with
  | none => Except.error BadAlloc.mk
  | some p => Except.ok (some p)

/-- `xrealloc`: calls the platform `std::realloc` and throws `std::bad_alloc`
when it returns null, otherwise returns its pointer. -/
def xrealloc (sysRealloc : Ptr → Nat → Ptr) (ptr : Ptr) (size : Nat) :
    Except BadAlloc Ptr :=
  match sysRealloc ptr size with
  | none => Except.error BadAlloc.mk
  | some p => Except.ok (some p)

/-- One step of the append-growth loop in `size_t` arithmetic:
`aligned_size += aligned_size >> 1`, with 64-bit wrap-around. -/
def growStep (a : Nat) : Nat :=
  (a + a / 2) % 2 ^ 64

/-- The capacity loop of `xreallocappend` (`aligned_size = 8; while
(aligned_size < size) aligned_size += aligned_size >> 1;`), embedded with a
fuel bound: `none` means the loop did not exit within `fuel` iterations. -/
def alignedSizeLoop (size : Nat) : Nat → Nat → Option Nat
  | 0, _ => none
  | fuel + 1, a => if a < size then alignedSizeLoop size fuel (growStep a) else some a

/-- The same loop in exact (unbounded) arithmetic, for stating that no
`size_t` wrap-around occurs on the claimed input range. -/
def pureSizeLoop (size : Nat) : Nat → Nat → Option Nat
  | 0, _ => none
  | fuel + 1, a => if a < size then pureSizeLoop size fuel (a + a / 2) else some a

/-- `xreallocappend`: computes the aligned capacity by the growth loop and
delegates to `xrealloc` with it (fuel-bounded, like the loop). -/
def xreallocappend (sysRealloc : Ptr → Nat → Ptr) (fuel : Nat) (ptr : Ptr)
    (size : Nat) : Option (Except BadAlloc Ptr) :=
  match alignedSizeLoop size fuel 8 with
  | none => none
  | some aligned => some (xrealloc sysRealloc ptr aligned)

/-- The exact growth sequence 8, 12, 18, 27, ... (`growSeq (n+1) =
growSeq n + growSeq n / 2`); its elements up to index 104 are below `2 ^ 64`,
so the `size_t` loop visits exactly these values there. -/
def growSeq : Nat → Nat
  | 0 => 8
  | n + 1 => growSeq n + growSeq n / 2

/-- One bit step of the reflected CRC-32 with polynomial `0xEDB88320`: shift
right, XORing the polynomial in when the low bit was set. -/
def crcBitStep (acc : Nat) : Nat :=
  if acc % 2 = 1 then Nat.xor (acc / 2) 0xEDB88320 else acc / 2

/-- One byte step of CRC-32: XOR the byte into the accumulator, then run
eight bit steps. -/
def crcByteStep (acc byte : Nat) : Nat :=
  Nat.iterate crcBitStep 8 (Nat.xor acc (byte % 256))

/-- Modelled from the spec: the body of `HashCRC32Continuous` is not under
`src/` (the header only declares it); per the spec's resumable-checksum
contract, the seed is the carried 32-bit accumulator (`0xFFFFFFFF` on the
first call), each byte of the buffer updates the accumulator, and
`finish = true` applies the final inversion (XOR with `0xFFFFFFFF`) before
returning. -/
def HashCRC32Continuous (buf : List Nat) (finish : Bool) (seed : Nat) : Nat :=
  let acc := buf.foldl crcByteStep seed
  if finish then Nat.xor acc 0xFFFFFFFF else acc

/-- `HashCRC32`: the one-shot CRC-32, namely `HashCRC32Continuous` over the
whole buffer with `finish = true` and the default seed `0xFFFFFFFF`. -/
def HashCRC32 (buf : List Nat) : Nat :=
  HashCRC32Continuous buf true 0xFFFFFFFF

/-- Feeding a sequence of chunks through `HashCRC32Continuous`, carrying each
returned accumulator into the next call as its seed and passing
`finish = true` only on the last call. -/
def feedChunks : List (List Nat) → Nat → Nat
  | [], seed => seed
  | [c], seed => HashCRC32Continuous c true seed
  | c :: c2 :: rest, seed => feedChunks (c2 :: rest) (HashCRC32Continuous c false seed)

/-- C2 counterexample: a success status with an empty message, combined via
`|=` with a second success status carrying a non-empty message, does not
become equal to that second status — the operator assigns only when the
right-hand side is a failure, so the receiver keeps its own message. -/
theorem orAssign_success_success_ne :
    Status.orAssign ⟨Code.SUCCESS, ""⟩ ⟨Code.SUCCESS, "x"⟩ ≠
      (⟨Code.SUCCESS, "x"⟩ : Status) := by
  decide

/-- C2 (amended): combining a success receiver with `rhs` via `|=` copies both
the code and the message of `rhs` when `rhs` is a failure, and leaves the
receiver unchanged (same SUCCESS code as `rhs`, but its own message) when
`rhs` is also a success. -/
theorem orAssign_success (a b : Status) (h : a.code = Code.SUCCESS) :
    (b.code ≠ Code.SUCCESS → Status.orAssign a b = b) ∧
      (b.code = Code.SUCCESS → Status.orAssign a b = a) := by
  constructor
  · intro hb
    simp [Status.orAssign, h, hb]
  · intro hb
    simp [Status.orAssign, hb]

/-- C2 witness: the amended combination law at concrete statuses. -/
theorem orAssign_success_witness :
    Status.orAssign ⟨Code.SUCCESS, "a"⟩ ⟨Code.NOT_FOUND_ERROR, "x"⟩ =
        (⟨Code.NOT_FOUND_ERROR, "x"⟩ : Status) ∧
      Status.orAssign ⟨Code.SUCCESS, "a"⟩ ⟨Code.SUCCESS, "b"⟩ =
        (⟨Code.SUCCESS, "a"⟩ : Status) :=
  ⟨(orAssign_success ⟨Code.SUCCESS, "a"⟩ ⟨Code.NOT_FOUND_ERROR, "x"⟩ rfl).1
      (by decide),
    (orAssign_success ⟨Code.SUCCESS, "a"⟩ ⟨Code.SUCCESS, "b"⟩ rfl).2 rfl⟩

/-- C3: combining a failing status with any second status via `|=` leaves the
receiver completely unchanged, code and message alike. -/
theorem orAssign_failure (a b : Status) (h : a.code ≠ Code.SUCCESS) :
    Status.orAssign a b = a := by
  simp [Status.orAssign, h]

/-- C3 witness: the frame law at concrete statuses. -/
theorem orAssign_failure_witness :
    Status.orAssign ⟨Code.NOT_FOUND_ERROR, "x"⟩ ⟨Code.SYSTEM_ERROR, "y"⟩ =
      (⟨Code.NOT_FOUND_ERROR, "x"⟩ : Status) :=
  orAssign_failure ⟨Code.NOT_FOUND_ERROR, "x"⟩ ⟨Code.SYSTEM_ERROR, "y"⟩
    (by decide)

/-- C4: the code evaluated at the failing input — `Status::CodeName` returns
the string `"CANCELED_ERROR "` with a trailing space for `CANCELED_ERROR`,
instead of the enumerator spelling `"CANCELED_ERROR"`; every other code does
return its enumerator spelling. -/
theorem codeName_canceled_trailing_space :
    Status.CodeName Code.CANCELED_ERROR = "CANCELED_ERROR " ∧
      Status.CodeName Code.CANCELED_ERROR ≠
        Code.enumeratorSpelling Code.CANCELED_ERROR ∧
      ∀ c : Code, c ≠ Code.CANCELED_ERROR →
        Status.CodeName c = Code.enumeratorSpelling c := by
  refine ⟨rfl, by decide, ?_⟩
  intro c hc
  cases c <;> first | rfl | exact absurd rfl hc

/-- C5: status equality and inequality depend only on the codes, and the
ordering compares code ordinals first, falling back to lexicographic message
comparison exactly when the codes coincide. -/
theorem status_compare_spec (a b : Status) :
    (Status.eqOp a b = true ↔ a.code = b.code) ∧
      (Status.neOp a b = true ↔ a.code ≠ b.code) ∧
      (Status.ltOp a b = true ↔
        (Code.ordinal a.code < Code.ordinal b.code ∨
          (a.code = b.code ∧ a.message < b.message))) := by
  refine ⟨by simp [Status.eqOp], by simp [Status.neOp], ?_⟩
  by_cases h : a.code = b.code
  · simp [Status.ltOp, h]
  · have hord : Code.ordinal a.code ≠ Code.ordinal b.code := by
      intro he
      exact h (by revert he; revert h; cases a.code <;> cases b.code <;> decide)
    simp [Status.ltOp, h, hord]

/-- C5 witness: the ordering law at concrete statuses whose codes differ. -/
theorem status_compare_spec_witness :
    Status.ltOp ⟨Code.SUCCESS, "b"⟩ ⟨Code.UNKNOWN_ERROR, "a"⟩ = true :=
  ((status_compare_spec ⟨Code.SUCCESS, "b"⟩ ⟨Code.UNKNOWN_ERROR, "a"⟩).2.2).mpr
    (Or.inl (by decide))

/-- C9: `OrDie` returns the status itself on success, and on any failure
raises a `StatusException` whose payload is the status and whose message is
`CodeName(code)` when the detail is empty and `CodeName(code) ++ ": " ++
detail` otherwise; in both cases the message extends the code's display
name. -/
theorem orDie_spec (s : Status) :
    (s.code = Code.SUCCESS → Status.OrDie s = Except.ok s) ∧
      (s.code ≠ Code.SUCCESS →
        Status.OrDie s = Except.error (StatusException.make s) ∧
          (StatusException.make s).status = s ∧
          (StatusException.make s).what = statusToString s ∧
          (s.message = "" → statusToString s = Status.CodeName s.code) ∧
          (s.message ≠ "" →
            statusToString s =
              Status.CodeName s.code ++ ": " ++ s.message) ∧
          ∃ t, (StatusException.make s).what = Status.CodeName s.code ++ t) := by
  refine ⟨fun h => by simp [Status.OrDie, h], fun h => ?_⟩
  refine ⟨by simp [Status.OrDie, h], rfl, rfl, ?_, ?_, ?_⟩
  · intro hm
    simp [statusToString, hm]
  · intro hm
    simp [statusToString, hm]
  · by_cases hm : s.message = ""
    · exact ⟨"", by simp [StatusException.make, statusToString, hm]⟩
    · exact ⟨": " ++ s.message, by
        simp [StatusException.make, statusToString, hm, String.append_assoc]⟩

/-- C9 witness: `OrDie` at a concrete success and a concrete failure. -/
theorem orDie_spec_witness :
    Status.OrDie ⟨Code.SUCCESS, ""⟩ = Except.ok ⟨Code.SUCCESS, ""⟩ ∧
      Status.OrDie ⟨Code.NOT_FOUND_ERROR, "no file"⟩ =
        Except.error (StatusException.make ⟨Code.NOT_FOUND_ERROR, "no file"⟩) :=
  ⟨(orDie_spec ⟨Code.SUCCESS, ""⟩).1 rfl,
    ((orDie_spec ⟨Code.NOT_FOUND_ERROR, "no file"⟩).2 (by decide)).1⟩

/-- C7: `SearchMap` returns the supplied default when the map lacks the key,
and the stored value when the map holds it. -/
theorem searchMap_spec {K V : Type} [DecidableEq K] (map : List (K × V))
    (key : K) (default_value : V) :
    (mapFind map key = none → SearchMap map key default_value = default_value) ∧
      (∀ k v, mapFind map key = some (k, v) →
        SearchMap map key default_value = v) := by
  constructor
  · intro h
    simp [SearchMap, h]
  · intro k v h
    simp [SearchMap, h]

/-- C7 witness: lookup on a concrete two-entry map, once for a missing key
and once for a present key. -/
theorem searchMap_spec_witness :
    SearchMap ([(1, 10), (2, 20)] : List (Nat × Nat)) 3 99 = 99 ∧
      SearchMap ([(1, 10), (2, 20)] : List (Nat × Nat)) 2 99 = 20 :=
  ⟨(searchMap_spec ([(1, 10), (2, 20)] : List (Nat × Nat)) 3 99).1 (by decide),
    (searchMap_spec ([(1, 10), (2, 20)] : List (Nat × Nat)) 2 99).2 2 20
      (by decide)⟩

/-- C8: each allocation wrapper raises `std::bad_alloc` exactly when the
platform allocator returns null, returns the platform allocator's pointer
otherwise, and never returns a null pointer. -/
theorem alloc_wrappers_spec (sysMalloc : Nat → Ptr)
    (sysCalloc : Nat → Nat → Ptr) (sysRealloc : Ptr → Nat → Ptr) (ptr : Ptr)
    (nmemb size : Nat) :
    ((sysMalloc size = none →
        xmalloc sysMalloc size = Except.error BadAlloc.mk) ∧
      (∀ p, sysMalloc size = some p →
        xmalloc sysMalloc size = Except.ok (some p)) ∧
      (∀ q, xmalloc sysMalloc size = Except.ok q → q ≠ none)) ∧
    ((sysCalloc nmemb size = none →
        xcalloc sysCalloc nmemb size = Except.error BadAlloc.mk) ∧
      (∀ p, sysCalloc nmemb size = some p →
        xcalloc sysCalloc nmemb size = Except.ok (some p)) ∧
      (∀ q, xcalloc sysCalloc nmemb size = Except.ok q → q ≠ none)) ∧
    ((sysRealloc ptr size = none →
        xrealloc sysRealloc ptr size = Except.error BadAlloc.mk) ∧
      (∀ p, sysRealloc ptr size = some p →
        xrealloc sysRealloc ptr size = Except.ok (some p)) ∧
      (∀ q, xrealloc sysRealloc ptr size = Except.ok q → q ≠ none)) := by
  refine ⟨⟨?_, ?_, ?_⟩, ⟨?_, ?_, ?_⟩, ⟨?_, ?_, ?_⟩⟩
  · intro h; simp [xmalloc, h]
  · intro p h; simp [xmalloc, h]
  · intro q h
    cases hm : sysMalloc size with
    | none => simp [xmalloc, hm] at h
    | some p => simp [xmalloc, hm] at h; simp [← h]
  · intro h; simp [xcalloc, h]
  · intro p h; simp [xcalloc, h]
  · intro q h
    cases hm : sysCalloc nmemb size with
    | none => simp [xcalloc, hm] at h
    | some p => simp [xcalloc, hm] at h; simp [← h]
  · intro h; simp [xrealloc, h]
  · intro p h; simp [xrealloc, h]
  · intro q h
    cases hm : sysRealloc ptr size with
    | none => simp [xrealloc, hm] at h
    | some p => simp [xrealloc, hm] at h; simp [← h]

/-- C8 witness: the wrappers at a concrete succeeding allocator and a
concrete failing one. -/
theorem alloc_wrappers_spec_witness :
    xmalloc (fun _ => some 1) 5 = Except.ok (some 1) ∧
      xmalloc (fun _ => none) 5 = Except.error BadAlloc.mk :=
  ⟨((alloc_wrappers_spec (fun _ => some 1) (fun _ _ => some 2)
        (fun _ _ => some 3) none 1 5).1).2.1 1 rfl,
    ((alloc_wrappers_spec (fun _ => none) (fun _ _ => some 2)
        (fun _ _ => some 3) none 1 5).1).1 rfl⟩

/-- Whenever the capacity loop exits with a value, that value satisfies the
loop's exit condition, hence is at least the requested size. -/
theorem alignedSizeLoop_exit_ge (size : Nat) :
    ∀ fuel a c, alignedSizeLoop size fuel a = some c → size ≤ c := by
  intro fuel
  induction fuel with
  | zero => intro a c h; exact absurd h (by simp [alignedSizeLoop])
  | succ f ih =>
    intro a c h
    by_cases hc : a < size
    · simp only [alignedSizeLoop, if_pos hc] at h
      exact ih _ _ h
    · simp only [alignedSizeLoop, if_neg hc, Option.some.injEq] at h
      omega

/-- C6: whenever the capacity loop of `xreallocappend` (candidate starting at
8, each step replaced by candidate plus half the candidate, until the
candidate is no smaller than the requested size) completes, the computed
capacity is at least the requested size and at least 8, and `xreallocappend`
delegates to `xrealloc` with exactly that capacity. -/
theorem xreallocappend_capacity (size fuel c : Nat)
    (h : alignedSizeLoop size fuel 8 = some c) :
    size ≤ c ∧ 8 ≤ c ∧
      ∀ sysRealloc ptr,
        xreallocappend sysRealloc fuel ptr size =
          some (xrealloc sysRealloc ptr c) := by
  have h1 : size ≤ c := alignedSizeLoop_exit_ge size fuel 8 c h
  have h2 : 8 ≤ c := by
    by_cases hs : size ≤ 8
    · cases fuel with
      | zero => exact absurd h (by simp [alignedSizeLoop])
      | succ f =>
        have hlt : ¬ (8 < size) := by omega
        simp only [alignedSizeLoop, if_neg hlt, Option.some.injEq] at h
        omega
    · omega
  exact ⟨h1, h2, fun sysRealloc ptr => by simp [xreallocappend, h]⟩

/-- C6 witness: requesting 10 bytes grows the candidate 8 to 12, and
`xreallocappend` passes 12 to `xrealloc`. -/
theorem xreallocappend_capacity_witness :
    10 ≤ 12 ∧ 8 ≤ 12 ∧
      xreallocappend (fun _ _ => some 0) 3 none 10 =
        some (xrealloc (fun _ _ => some 0) none 12) := by
  obtain ⟨h1, h2, h3⟩ := xreallocappend_capacity 10 3 12 (by decide)
  exact ⟨h1, h2, h3 (fun _ _ => some 0) none⟩

/-- Feeding any non-empty chunk list from an arbitrary carried accumulator
folds the byte step over the concatenation and applies the final inversion
once, at the end. -/
theorem feedChunks_eq_fold (chunks : List (List Nat)) (seed : Nat)
    (h : chunks ≠ []) :
    feedChunks chunks seed =
      Nat.xor (chunks.flatten.foldl crcByteStep seed) 0xFFFFFFFF := by
  induction chunks generalizing seed with
  | nil => exact absurd rfl h
  | cons c rest ih =>
    cases rest with
    | nil =>
      simp [feedChunks, HashCRC32Continuous]
    | cons c2 rest2 =>
      have hne : c2 :: rest2 ≠ ([] : List (List Nat)) := by simp
      calc feedChunks (c :: c2 :: rest2) seed
          = feedChunks (c2 :: rest2) (HashCRC32Continuous c false seed) := rfl
        _ = Nat.xor
              ((c2 :: rest2).flatten.foldl crcByteStep (c.foldl crcByteStep seed))
              0xFFFFFFFF := by
            rw [ih _ hne]
            simp [HashCRC32Continuous]
        _ = Nat.xor ((c :: c2 :: rest2).flatten.foldl crcByteStep seed)
              0xFFFFFFFF := by
            simp [List.flatten, List.foldl_append]

/-- C1: for any buffer split into a sequence of non-empty chunks, feeding the
chunks through `HashCRC32Continuous` (seed `0xFFFFFFFF` first, carrying each
returned accumulator forward, `finish = true` only on the last call) equals
the one-shot `HashCRC32` over the concatenation, which itself is
`HashCRC32Continuous` over the full buffer with `finish = true` and the
default seed. -/
theorem hashCRC32_chunked (chunks : List (List Nat)) (h1 : chunks ≠ [])
    (_h2 : ∀ c ∈ chunks, c ≠ []) :
    feedChunks chunks 0xFFFFFFFF = HashCRC32 chunks.flatten ∧
      HashCRC32 chunks.flatten =
        HashCRC32Continuous chunks.flatten true 0xFFFFFFFF := by
  refine ⟨?_, rfl⟩
  rw [feedChunks_eq_fold chunks 0xFFFFFFFF h1]
  simp [HashCRC32, HashCRC32Continuous]

/-- C1 witness: the spec's own example, the buffer `"123456789"` split as
`["123", "456", "789"]`. -/
theorem hashCRC32_chunked_witness :
    feedChunks [[49, 50, 51], [52, 53, 54], [55, 56, 57]] 0xFFFFFFFF =
      HashCRC32 (List.flatten [[49, 50, 51], [52, 53, 54], [55, 56, 57]]) :=
  (hashCRC32_chunked [[49, 50, 51], [52, 53, 54], [55, 56, 57]] (by decide)
      (by decide)).1

/-- Unfolding equation of the growth sequence. -/
theorem growSeq_succ (n : Nat) : growSeq (n + 1) = growSeq n + growSeq n / 2 :=
  rfl

/-- Every element of the growth sequence is at least 8. -/
theorem growSeq_ge8 (n : Nat) : 8 ≤ growSeq n := by
  induction n with
  | zero => exact Nat.le_refl 8
  | succ n ih =>
    rw [growSeq_succ]
    omega

/-- The growth sequence is strictly increasing. -/
theorem growSeq_strictMono : StrictMono growSeq := by
  apply strictMono_nat_of_lt_succ
  intro n
  have h8 := growSeq_ge8 n
  rw [growSeq_succ]
  omega

/-- Running the capacity loop from a sequence element, with the target
reachable below `2 ^ 64`: both the `size_t` loop and the exact-arithmetic
loop stop at the first sequence element that reaches the requested size. -/
theorem alignedSizeLoop_run (d : Nat) :
    ∀ i size : Nat, size ≤ growSeq (i + d) → growSeq (i + d) < 2 ^ 64 →
      ∃ j, i ≤ j ∧ j ≤ i + d ∧ size ≤ growSeq j ∧
        (∀ k, i ≤ k → k < j → growSeq k < size) ∧
        alignedSizeLoop size (d + 1) (growSeq i) = some (growSeq j) ∧
        pureSizeLoop size (d + 1) (growSeq i) = some (growSeq j) := by
  induction d with
  | zero =>
    intro i size hle hlt
    have hnot : ¬ (growSeq i < size) := by
      simp only [Nat.add_zero] at hle
      omega
    refine ⟨i, Nat.le_refl i, by omega, by simpa using hle, ?_, ?_, ?_⟩
    · intro k hik hki
      omega
    · simp [alignedSizeLoop, hnot]
    · simp [pureSizeLoop, hnot]
  | succ d ih =>
    intro i size hle hlt
    by_cases hstart : growSeq i < size
    · have hmono : growSeq (i + 1) ≤ growSeq (i + (d + 1)) :=
        growSeq_strictMono.monotone (by omega)
      have hnext_lt : growSeq (i + 1) < 2 ^ 64 := lt_of_le_of_lt hmono hlt
      have hstep : growStep (growSeq i) = growSeq (i + 1) := by
        rw [growStep, ← growSeq_succ]
        exact Nat.mod_eq_of_lt hnext_lt
      have harith : i + 1 + d = i + (d + 1) := by omega
      obtain ⟨j, hij, hjd, hsz, hmin, haln, hpure⟩ :=
        ih (i + 1) size (by rw [harith]; exact hle) (by rw [harith]; exact hlt)
      refine ⟨j, by omega, by omega, hsz, ?_, ?_, ?_⟩
      · intro k hik hkj
        rcases Nat.eq_or_lt_of_le hik with h | h
        · rw [← h]
          exact hstart
        · exact hmin k (by omega) hkj
      · simp only [alignedSizeLoop, if_pos hstart, hstep]
        exact haln
      · simp only [pureSizeLoop, if_pos hstart, ← growSeq_succ]
        exact hpure
    · refine ⟨i, Nat.le_refl i, by omega, by omega, ?_, ?_, ?_⟩
      · intro k hik hki
        omega
      · simp [alignedSizeLoop, hstart]
      · simp [pureSizeLoop, hstart]

/-- C10: for every requested size up to `growSeq 104` (the largest element of
the growth sequence below `2 ^ 64`), the capacity loop of `xreallocappend`
terminates, the `size_t` loop agrees step for step with its exact-arithmetic
counterpart (so no wrap-around occurs), and the computed capacity is exactly
the least element of the sequence that is at least `max size 8`. -/
theorem alignedSizeLoop_least (size : Nat) (h : size ≤ growSeq 104) :
    ∃ j, j ≤ 104 ∧
      alignedSizeLoop size 105 8 = some (growSeq j) ∧
      pureSizeLoop size 105 8 = some (growSeq j) ∧
      max size 8 ≤ growSeq j ∧
      ∀ k, max size 8 ≤ growSeq k → growSeq j ≤ growSeq k := by
  have h64 : growSeq 104 < 2 ^ 64 := by decide
  obtain ⟨j, _, hjd, hsz, hmin, haln, hpure⟩ :=
    alignedSizeLoop_run 104 0 size (by simpa using h) (by simpa using h64)
  refine ⟨j, by omega, haln, hpure, max_le hsz (growSeq_ge8 j), ?_⟩
  intro k hk
  have hks : size ≤ growSeq k := le_trans (Nat.le_max_left size 8) hk
  by_cases hkj : j ≤ k
  · exact growSeq_strictMono.monotone hkj
  · exact absurd hks (by
      have := hmin k (Nat.zero_le k) (by omega)
      omega)

/-- C10 witness: requesting 100 bytes terminates at the sequence element 135,
the least element at least 100, with the exact and `size_t` loops agreeing. -/
theorem alignedSizeLoop_least_witness :
    100 ≤ growSeq 104 ∧
      ∃ j, j ≤ 104 ∧
        alignedSizeLoop 100 105 8 = some (growSeq j) ∧
        pureSizeLoop 100 105 8 = some (growSeq j) ∧
        max 100 8 ≤ growSeq j ∧
        ∀ k, max 100 8 ≤ growSeq k → growSeq j ≤ growSeq k :=
  ⟨by decide, alignedSizeLoop_least 100 (by decide)⟩

end Tkrzw
